import Mathlib

/-!
Verification of the request-scheduling / caching / real-time-broadcast core of
the evm-wallet-backend repository.

The JavaScript sources are shallowly embedded:
* `MemoryCache` / `RpcCache` model `src/utils/cache.js` (JS `Map` becomes an
  insertion-ordered association list over `Str := List Char`, `Date.now()`
  becomes an explicit `now : Nat` argument, falsy checks such as
  `ttl ? _ : _` and `if (oldestKey)` become explicit tests against `0` / `[]`).
* The WebSocket subscription hub (subscribe / unsubscribe / disconnect
  handlers and the per-connection rate limiter) models the
  `initializeWebSocketServer` connection handler.
* The per-network task queue's retry loop and worker pool come from the
  `better-queue` dependency, which is not part of the repository sources;
  those two definitions are modelled from the specification and are marked
  as such in their doc comments.
-/

namespace EvmWallet

/-- JS strings are modelled as lists of characters. -/
abbrev Str := List Char

/-! ## Bounded cache (`src/utils/cache.js`, class `MemoryCache`) -/

/-- One cache entry, as stored by `MemoryCache.set`:
`{ value, expiry, lastAccessed }`. -/
structure CacheEntry (V : Type) where
  value : V
  expiry : Nat
  lastAccessed : Nat
deriving DecidableEq

/-- The `this.stats` counters of `MemoryCache`. -/
structure CacheStats where
  hits : Nat
  misses : Nat
  sets : Nat
  evictions : Nat
deriving DecidableEq

/-- State of a `MemoryCache` instance: the backing `Map` (an insertion-ordered
association list), the default TTL `this.ttl`, `this.maxSize` and the
statistics counters. -/
structure MemoryCache (V : Type) where
  entries : List (Str × CacheEntry V)
  ttl : Nat
  maxSize : Nat
  stats : CacheStats
deriving DecidableEq

/-- `Map.prototype.get`: first (and in a real `Map`, only) binding of a key. -/
def mapGet {V : Type} : List (Str × CacheEntry V) → Str → Option (CacheEntry V)
  | [], _ => none
  | p :: rest, k => if p.1 = k then some p.2 else mapGet rest k

/-- `Map.prototype.set`: replace the binding in place if the key exists,
otherwise append at the end (JS `Map` preserves insertion order). -/
def mapSet {V : Type} : List (Str × CacheEntry V) → Str → CacheEntry V → List (Str × CacheEntry V)
  | [], k, e => [(k, e)]
  | p :: rest, k, e => if p.1 = k then (k, e) :: rest else p :: mapSet rest k e

/-- `Map.prototype.delete`: remove the binding of a key. -/
def mapDelete {V : Type} (l : List (Str × CacheEntry V)) (k : Str) : List (Str × CacheEntry V) :=
  l.filter (fun p => decide (p.1 ≠ k))

/-- The in-place mutation `item.lastAccessed = now` performed by a cache hit. -/
def updateAccess {V : Type} : List (Str × CacheEntry V) → Str → Nat → List (Str × CacheEntry V)
  | [], _, _ => []
  | p :: rest, k, now =>
    if p.1 = k then (p.1, { p.2 with lastAccessed := now }) :: rest
    else p :: updateAccess rest k now

/-- The keys currently stored in the backing map. -/
def cacheKeys {V : Type} (l : List (Str × CacheEntry V)) : List Str :=
  l.map Prod.fst

/-- `new MemoryCache(options)`: `options.ttl || 60000` and
`options.maxSize || 1000` (a falsy option, modelled as `0`, selects the
default). -/
def MemoryCache.create (V : Type) (ttlOpt maxSizeOpt : Nat) : MemoryCache V :=
  { entries := []
    ttl := if ttlOpt ≠ 0 then ttlOpt else 60000
    maxSize := if maxSizeOpt ≠ 0 then maxSizeOpt else 1000
    stats := ⟨0, 0, 0, 0⟩ }

/-- `MemoryCache.get(key)` at time `now`: returns the value (or `none`) and the
updated cache state.  An entry with `item.expiry && item.expiry < now` is
deleted and counted as a miss; a hit bumps `hits` and refreshes
`lastAccessed`. -/
def MemoryCache.get {V : Type} (c : MemoryCache V) (key : Str) (now : Nat) :
    Option V × MemoryCache V :=
  match mapGet c.entries key with
  | none => (none, { c with stats := { c.stats with misses := c.stats.misses + 1 } })
  | some item =>
    if item.expiry ≠ 0 ∧ item.expiry < now then
      (none, { c with entries := mapDelete c.entries key,
                      stats := { c.stats with misses := c.stats.misses + 1 } })
    else
      (some item.value,
       { c with entries := updateAccess c.entries key now,
                stats := { c.stats with hits := c.stats.hits + 1 } })

/-- One step of the `evictLRU` scan: keep the entry with the strictly smallest
`lastAccessed` seen so far (`oldest` starts at `Infinity`, modelled by
`none`). -/
def findOldestStep {V : Type} (acc : Option (Str × Nat)) (p : Str × CacheEntry V) :
    Option (Str × Nat) :=
  match acc with
  | none => some (p.1, p.2.lastAccessed)
  | some (k0, la0) =>
    if p.2.lastAccessed < la0 then some (p.1, p.2.lastAccessed) else some (k0, la0)

/-- The scan of `evictLRU` over `this.cache.entries()` in insertion order. -/
def findOldest {V : Type} (l : List (Str × CacheEntry V)) : Option (Str × Nat) :=
  l.foldl findOldestStep none

/-- `MemoryCache.evictLRU()`: delete the key with the smallest `lastAccessed`
and bump the eviction counter — but only when the found key is truthy
(`if (oldestKey)`), i.e. non-null and not the empty string. -/
def MemoryCache.evictLRU {V : Type} (c : MemoryCache V) : MemoryCache V :=
  match findOldest c.entries with
  | none => c
  | some (k, _) =>
    if k ≠ [] then
      { c with entries := mapDelete c.entries k,
               stats := { c.stats with evictions := c.stats.evictions + 1 } }
    else c

/-- `MemoryCache.set(key, value, ttl)` at time `now`: expiry is
`ttl ? now + ttl : now + this.ttl` (a falsy `ttl`, modelled as `0`, selects the
default), `sets` is bumped, `evictLRU` runs when
`this.cache.size >= this.maxSize`, then the entry is written. -/
def MemoryCache.set {V : Type} (c : MemoryCache V) (key : Str) (v : V) (ttl now : Nat) :
    MemoryCache V :=
  let expiry := if ttl ≠ 0 then now + ttl else now + c.ttl
  let c1 := { c with stats := { c.stats with sets := c.stats.sets + 1 } }
  let c2 := if c1.maxSize ≤ c1.entries.length then c1.evictLRU else c1
  { c2 with entries := mapSet c2.entries key ⟨v, expiry, now⟩ }

/-- `MemoryCache.delete(key)`. -/
def MemoryCache.del {V : Type} (c : MemoryCache V) (key : Str) : MemoryCache V :=
  { c with entries := mapDelete c.entries key }

/-! ### Basic map lemmas -/

theorem mapGet_mapDelete_self {V : Type} (l : List (Str × CacheEntry V)) (k : Str) :
    mapGet (mapDelete l k) k = none := by
  induction l with
  | nil => rfl
  | cons p rest ih =>
    rw [mapDelete, List.filter_cons]
    by_cases h : p.1 = k
    · simp only [h, ne_eq, not_true_eq_false, decide_False, Bool.false_eq_true, if_false]
      exact ih
    · simp only [ne_eq, h, not_false_eq_true, decide_True, if_true, mapGet, if_neg h]
      exact ih

theorem mapGet_mapSet_self {V : Type} (l : List (Str × CacheEntry V)) (k : Str)
    (e : CacheEntry V) : mapGet (mapSet l k e) k = some e := by
  induction l with
  | nil => simp [mapSet, mapGet]
  | cons p rest ih =>
    by_cases h : p.1 = k
    · simp [mapSet, h, mapGet]
    · simpa [mapSet, h, mapGet] using ih

theorem mem_cacheKeys_mapSet {V : Type} (l : List (Str × CacheEntry V)) (k k' : Str)
    (e : CacheEntry V) :
    k' ∈ cacheKeys (mapSet l k e) ↔ k' = k ∨ k' ∈ cacheKeys l := by
  induction l with
  | nil => simp [mapSet, cacheKeys]
  | cons p rest ih =>
    rw [mapSet]
    split
    next h =>
      simp only [cacheKeys, List.map_cons, List.mem_cons]
      rw [h]
      tauto
    next h =>
      simp only [cacheKeys, List.map_cons, List.mem_cons]
      simp only [cacheKeys] at ih
      rw [ih]
      tauto

theorem mem_cacheKeys_mapDelete {V : Type} (l : List (Str × CacheEntry V)) (k k' : Str) :
    k' ∈ cacheKeys (mapDelete l k) ↔ k' ∈ cacheKeys l ∧ k' ≠ k := by
  simp only [cacheKeys, mapDelete, List.mem_map, List.mem_filter]
  constructor
  · rintro ⟨p, ⟨hp, hne⟩, rfl⟩
    exact ⟨⟨p, hp, rfl⟩, by simpa using hne⟩
  · rintro ⟨⟨p, hp, rfl⟩, hne⟩
    exact ⟨p, ⟨hp, by simpa using hne⟩, rfl⟩

/-! ## Claim C7: expired `get` is absent, removes the entry and is idempotent -/

/-- C7: for every cache entry with a positive expiry, a `get` performed at any
time strictly after `expiresAt` returns absent, removes the entry, and counts
as a miss; a repeated `get` (at any later time) is still absent and leaves the
entry map unchanged (only the miss counter moves). -/
theorem c7_expired_get {V : Type} (c : MemoryCache V) (key : Str) (e : CacheEntry V)
    (now now2 : Nat) (hfind : mapGet c.entries key = some e) (hpos : 0 < e.expiry)
    (hexp : e.expiry < now) :
    (c.get key now).1 = none ∧
    mapGet (c.get key now).2.entries key = none ∧
    (c.get key now).2.stats.misses = c.stats.misses + 1 ∧
    ((c.get key now).2.get key now2).1 = none ∧
    ((c.get key now).2.get key now2).2.entries = (c.get key now).2.entries := by
  have hcond : e.expiry ≠ 0 ∧ e.expiry < now := ⟨Nat.pos_iff_ne_zero.mp hpos, hexp⟩
  have h1 : c.get key now =
      (none, { c with entries := mapDelete c.entries key,
                      stats := { c.stats with misses := c.stats.misses + 1 } }) := by
    simp [MemoryCache.get, hfind, hcond]
  have hgone : mapGet (mapDelete c.entries key) key = none := mapGet_mapDelete_self _ _
  refine ⟨?_, ?_, ?_, ?_, ?_⟩
  · rw [h1]
  · rw [h1]; simpa using hgone
  · rw [h1]
  · rw [h1]; simp [MemoryCache.get, hgone]
  · rw [h1]; simp [MemoryCache.get, hgone]

/-- Concrete cache used to witness C7. -/
def c7cache : MemoryCache Nat :=
  { entries := [(['k'], ⟨5, 10, 0⟩)], ttl := 60000, maxSize := 1000, stats := ⟨0, 0, 0, 0⟩ }

/-- Witness for C7 at a concrete expired entry. -/
theorem c7_expired_get_witness :
    (mapGet c7cache.entries ['k'] = some ⟨5, 10, 0⟩ ∧ 0 < 10 ∧ 10 < 11) ∧
    ((c7cache.get ['k'] 11).1 = none ∧
     mapGet (c7cache.get ['k'] 11).2.entries ['k'] = none ∧
     (c7cache.get ['k'] 11).2.stats.misses = c7cache.stats.misses + 1 ∧
     ((c7cache.get ['k'] 11).2.get ['k'] 12).1 = none ∧
     ((c7cache.get ['k'] 11).2.get ['k'] 12).2.entries = (c7cache.get ['k'] 11).2.entries) :=
  ⟨⟨by decide, by decide, by decide⟩,
   c7_expired_get c7cache ['k'] ⟨5, 10, 0⟩ 11 12 (by decide) (by decide) (by decide)⟩

/-! ## Claim C10: a falsy `ttl` argument selects the default TTL -/

/-- C10: `set(key, value, ttl)` with a falsy `ttl` (0 or omitted) stores the
entry with `expiry = now + this.ttl` (the configured default); in particular a
requested `ttl` of `0` does not yield an immediately expired entry — any `get`
at a time `now ≤ now2 ≤ now + this.ttl` still hits. -/
theorem c10_falsy_ttl {V : Type} (c : MemoryCache V) (key : Str) (v : V) (now now2 : Nat)
    (hle : now2 ≤ now + c.ttl) :
    mapGet (c.set key v 0 now).entries key = some ⟨v, now + c.ttl, now⟩ ∧
    ((c.set key v 0 now).get key now2).1 = some v := by
  have hset : mapGet (c.set key v 0 now).entries key = some ⟨v, now + c.ttl, now⟩ := by
    simp only [MemoryCache.set]
    simpa using mapGet_mapSet_self _ key _
  refine ⟨hset, ?_⟩
  have hnl : ¬ (now + c.ttl < now2) := Nat.not_lt.mpr hle
  simp [MemoryCache.get, hset, hnl]

/-! ## Claim C2: LRU eviction on `set` -/

theorem findOldest_foldl_src {V : Type} (l : List (Str × CacheEntry V))
    (acc : Option (Str × Nat)) (k : Str) (la : Nat)
    (h : l.foldl findOldestStep acc = some (k, la)) :
    acc = some (k, la) ∨ ∃ e : CacheEntry V, (k, e) ∈ l ∧ e.lastAccessed = la := by
  induction l generalizing acc with
  | nil => exact Or.inl h
  | cons p rest ih =>
    rw [List.foldl_cons] at h
    rcases ih (findOldestStep acc p) h with hstep | ⟨e, he, hla⟩
    · cases acc with
      | none =>
        simp only [findOldestStep, Option.some.injEq, Prod.mk.injEq] at hstep
        exact Or.inr ⟨p.2, by simp [← hstep.1], hstep.2⟩
      | some q =>
        rw [findOldestStep] at hstep
        split at hstep
        · simp only [Option.some.injEq, Prod.mk.injEq] at hstep
          exact Or.inr ⟨p.2, by simp [← hstep.1], hstep.2⟩
        · exact Or.inl hstep
    · exact Or.inr ⟨e, List.mem_cons_of_mem _ he, hla⟩

theorem findOldest_foldl_min {V : Type} (l : List (Str × CacheEntry V))
    (acc : Option (Str × Nat)) (k : Str) (la : Nat)
    (h : l.foldl findOldestStep acc = some (k, la)) :
    (∀ k0 la0, acc = some (k0, la0) → la ≤ la0) ∧
    ∀ p ∈ l, la ≤ p.2.lastAccessed := by
  induction l generalizing acc with
  | nil =>
    refine ⟨fun k0 la0 hacc => ?_, fun p hp => absurd hp (List.not_mem_nil p)⟩
    rw [List.foldl_nil] at h
    rw [h] at hacc
    cases hacc
    exact Nat.le_refl la
  | cons p rest ih =>
    rw [List.foldl_cons] at h
    obtain ⟨hacc', hrest⟩ := ih (findOldestStep acc p) h
    have hp : la ≤ p.2.lastAccessed := by
      cases acc with
      | none => exact hacc' p.1 p.2.lastAccessed rfl
      | some q =>
        by_cases hlt : p.2.lastAccessed < q.2
        · exact hacc' p.1 p.2.lastAccessed (by simp [findOldestStep, hlt])
        · have : la ≤ q.2 := hacc' q.1 q.2 (by simp [findOldestStep, hlt])
          exact Nat.le_trans this (Nat.le_of_not_lt hlt)
    refine ⟨fun k0 la0 hacc => ?_, fun q hq => ?_⟩
    · subst hacc
      by_cases hlt : p.2.lastAccessed < la0
      · have : la ≤ p.2.lastAccessed :=
          hacc' p.1 p.2.lastAccessed (by simp [findOldestStep, hlt])
        exact Nat.le_trans this (Nat.le_of_lt hlt)
      · exact hacc' k0 la0 (by simp [findOldestStep, hlt])
    · rcases List.mem_cons.mp hq with rfl | hq'
      · exact hp
      · exact hrest q hq'

/-- C2 counterexample: with `maxSize = 1`, writing the same key twice keeps the
entry count at `1` (never past capacity) — `set` overwrites an existing key —
yet the second `set` still performs an eviction and bumps the counter, because
the code checks `this.cache.size >= this.maxSize` before looking at the key.
The claim "a set that does not exceed capacity evicts nothing" is therefore
false on the code. -/
theorem c2_overwrite_evicts :
    ((MemoryCache.create Nat 0 1).set ['a'] 7 5 0).entries.length = 1 ∧
    ((MemoryCache.create Nat 0 1).set ['a'] 7 5 0).maxSize = 1 ∧
    (((MemoryCache.create Nat 0 1).set ['a'] 7 5 0).set ['a'] 8 5 1).entries.length = 1 ∧
    (((MemoryCache.create Nat 0 1).set ['a'] 7 5 0).set ['a'] 8 5 1).stats.evictions =
      ((MemoryCache.create Nat 0 1).set ['a'] 7 5 0).stats.evictions + 1 := by
  decide

/-- C2 (amended): a `set` whose pre-insertion entry count is at least
`maxSize` — including a `set` that merely overwrites an existing key — evicts
exactly the first entry with the smallest `lastAccessedAt` in insertion order
(provided that key is a non-empty string, since `evictLRU` skips falsy keys)
and increments the eviction counter by one; a `set` with the entry count below
`maxSize` evicts nothing. -/
theorem c2_lru_eviction {V : Type} (c : MemoryCache V) (key lru : Str) (v : V)
    (ttl now la : Nat) :
    (c.entries.length < c.maxSize →
      ((c.set key v ttl now).stats.evictions = c.stats.evictions ∧
       ∀ k', k' ∈ cacheKeys (c.set key v ttl now).entries ↔
         k' = key ∨ k' ∈ cacheKeys c.entries)) ∧
    (c.maxSize ≤ c.entries.length → findOldest c.entries = some (lru, la) → lru ≠ [] →
      ((c.set key v ttl now).stats.evictions = c.stats.evictions + 1 ∧
       (∀ k', k' ∈ cacheKeys (c.set key v ttl now).entries ↔
          k' = key ∨ (k' ∈ cacheKeys c.entries ∧ k' ≠ lru)) ∧
       (∃ e : CacheEntry V, (lru, e) ∈ c.entries ∧ e.lastAccessed = la) ∧
       ∀ p ∈ c.entries, la ≤ p.2.lastAccessed)) := by
  constructor
  · intro hlt
    have hnot : ¬ c.maxSize ≤ c.entries.length := Nat.not_le.mpr hlt
    constructor
    · simp [MemoryCache.set, hnot]
    · intro k'
      simp only [MemoryCache.set, hnot, if_false]
      exact mem_cacheKeys_mapSet _ _ _ _
  · intro hge hfind hne
    have hfind' : List.foldl findOldestStep none c.entries = some (lru, la) := hfind
    have hsrc := findOldest_foldl_src c.entries none lru la hfind
    have hmin := findOldest_foldl_min c.entries none lru la hfind
    have hentries : (c.set key v ttl now).entries =
        mapSet (mapDelete c.entries lru) key
          ⟨v, if ttl ≠ 0 then now + ttl else now + c.ttl, now⟩ := by
      simp [MemoryCache.set, hge, MemoryCache.evictLRU, findOldest, hfind', hne]
    have hstats : (c.set key v ttl now).stats.evictions = c.stats.evictions + 1 := by
      simp [MemoryCache.set, hge, MemoryCache.evictLRU, findOldest, hfind', hne]
    refine ⟨hstats, fun k' => ?_, ?_, hmin.2⟩
    · rw [hentries, mem_cacheKeys_mapSet]
      rw [mem_cacheKeys_mapDelete]
    · rcases hsrc with habs | hok
      · cases habs
      · exact hok

/-- Concrete under-capacity cache used to witness C2. -/
def c2witA : MemoryCache Nat :=
  { entries := [(['a'], ⟨1, 100, 5⟩)], ttl := 60000, maxSize := 2, stats := ⟨0, 0, 0, 0⟩ }

/-- Concrete at-capacity cache used to witness C2. -/
def c2witB : MemoryCache Nat :=
  { entries := [(['a'], ⟨1, 100, 5⟩), (['b'], ⟨2, 100, 3⟩)], ttl := 60000, maxSize := 2,
    stats := ⟨0, 0, 0, 0⟩ }

/-- Witness for C2 at concrete caches, one below capacity and one at
capacity. -/
theorem c2_lru_eviction_witness :
    (c2witA.entries.length < c2witA.maxSize ∧
      ((c2witA.set ['c'] 9 5 7).stats.evictions = c2witA.stats.evictions ∧
       ∀ k', k' ∈ cacheKeys (c2witA.set ['c'] 9 5 7).entries ↔
         k' = ['c'] ∨ k' ∈ cacheKeys c2witA.entries)) ∧
    (c2witB.maxSize ≤ c2witB.entries.length ∧
     findOldest c2witB.entries = some (['b'], 3) ∧ (['b'] : Str) ≠ [] ∧
      ((c2witB.set ['c'] 9 5 7).stats.evictions = c2witB.stats.evictions + 1 ∧
       (∀ k', k' ∈ cacheKeys (c2witB.set ['c'] 9 5 7).entries ↔
          k' = ['c'] ∨ (k' ∈ cacheKeys c2witB.entries ∧ k' ≠ ['b'])) ∧
       (∃ e : CacheEntry Nat, (['b'], e) ∈ c2witB.entries ∧ e.lastAccessed = 3) ∧
       ∀ p ∈ c2witB.entries, 3 ≤ p.2.lastAccessed)) :=
  ⟨⟨by decide, (c2_lru_eviction c2witA ['c'] ['b'] 9 5 7 3).1 (by decide)⟩,
   ⟨by decide, by decide, by decide,
    (c2_lru_eviction c2witB ['c'] ['b'] 9 5 7 3).2 (by decide) (by decide) (by decide)⟩⟩

/-- Witness for C10 at a concrete cache with default TTL 60000. -/
theorem c10_falsy_ttl_witness :
    (7 ≤ 5 + (MemoryCache.create Nat 0 0).ttl) ∧
    (mapGet ((MemoryCache.create Nat 0 0).set ['a'] 42 0 5).entries ['a'] =
       some ⟨42, 5 + (MemoryCache.create Nat 0 0).ttl, 5⟩ ∧
     (((MemoryCache.create Nat 0 0).set ['a'] 42 0 5).get ['a'] 7).1 = some 42) :=
  ⟨by decide, c10_falsy_ttl (MemoryCache.create Nat 0 0) ['a'] 42 5 7 (by decide)⟩

/-! ## RPC cache policy (`src/utils/cache.js`, class `RpcCache`) -/

/-- JS values that can appear in an RPC parameter list, as seen by
`JSON.stringify`: objects keep the insertion order of their keys. -/
inductive JValue where
  | null : JValue
  | bool : Bool → JValue
  | num : Int → JValue
  | str : Str → JValue
  | arr : List JValue → JValue
  | obj : List (Str × JValue) → JValue

/-- JSON string escaping of a single character. -/
def escapeChar (ch : Char) : List Char :=
  if ch = '"' then ['\\', '"']
  else if ch = '\\' then ['\\', '\\']
  else if ch = '\n' then ['\\', 'n']
  else if ch = '\t' then ['\\', 't']
  else if ch = '\r' then ['\\', 'r']
  else [ch]

/-- JSON string escaping. -/
def escapeStr (s : Str) : List Char :=
  s.flatMap escapeChar

/-- Decimal rendering of a natural number. -/
def natChars (n : Nat) : List Char :=
  Nat.toDigits 10 n

/-- Decimal rendering of an integer. -/
def intChars (i : Int) : List Char :=
  if i < 0 then '-' :: natChars i.natAbs else natChars i.toNat

mutual

/-- `JSON.stringify` on a single value. -/
def stringify : JValue → List Char
  | .null => "null".data
  | .bool b => (cond b "true" "false").data
  | .num i => intChars i
  | .str s => '"' :: (escapeStr s ++ ['"'])
  | .arr l => '[' :: (stringifyItems l ++ [']'])
  | .obj l => '\x7b' :: (stringifyFields l ++ ['\x7d'])

/-- Comma-separated serialization of array elements. -/
def stringifyItems : List JValue → List Char
  | [] => []
  | [v] => stringify v
  | v :: rest => stringify v ++ ',' :: stringifyItems rest

/-- Comma-separated serialization of object fields, in insertion order. -/
def stringifyFields : List (Str × JValue) → List Char
  | [] => []
  | [(k, v)] => '"' :: (escapeStr k ++ '"' :: ':' :: stringify v)
  | (k, v) :: rest =>
    ('"' :: (escapeStr k ++ '"' :: ':' :: stringify v)) ++ ',' :: stringifyFields rest

end

/-- `RpcCache.createKey(method, params)`:
the template string `method + ":" + JSON.stringify(params)`. -/
def createKey (method : Str) (params : List JValue) : Str :=
  method ++ ':' :: stringify (JValue.arr params)

/-- State of an `RpcCache` instance: the per-method TTL table (a total
function, `0` meaning the method is not listed), the `default` entry of the
table, and the wrapped `MemoryCache`. -/
structure RpcCache (V : Type) where
  ttlConfig : Str → Nat
  defaultTtl : Nat
  cache : MemoryCache V

/-- `RpcCache.getTtl(method)`:
`this.ttlConfig[method] || this.ttlConfig.default`. -/
def RpcCache.getTtl {V : Type} (r : RpcCache V) (m : Str) : Nat :=
  if r.ttlConfig m ≠ 0 then r.ttlConfig m else r.defaultTtl

/-- `RpcCache.set(method, params, value)` at time `now`. -/
def RpcCache.set {V : Type} (r : RpcCache V) (m : Str) (ps : List JValue) (v : V)
    (now : Nat) : RpcCache V :=
  { r with cache := r.cache.set (createKey m ps) v (r.getTtl m) now }

/-- `RpcCache.invalidate(method)`: collect every key of the backing map that
starts with `method + ":"`, then delete each collected key. -/
def RpcCache.invalidate {V : Type} (r : RpcCache V) (m : Str) : RpcCache V :=
  let keysToDelete :=
    (r.cache.entries.filter (fun p => List.isPrefixOf (m ++ [':']) p.1)).map Prod.fst
  { r with cache := keysToDelete.foldl MemoryCache.del r.cache }

/-! ## Claim C4: `invalidate` removes all and only the method's entries -/

theorem mem_cacheKeys_foldl_del {V : Type} (L : List Str) (c : MemoryCache V) (k : Str) :
    k ∈ cacheKeys (L.foldl MemoryCache.del c).entries ↔
      k ∈ cacheKeys c.entries ∧ k ∉ L := by
  induction L generalizing c with
  | nil => simp
  | cons a L ih =>
    rw [List.foldl_cons, ih]
    simp only [MemoryCache.del, mem_cacheKeys_mapDelete, List.mem_cons]
    tauto

theorem colon_free_append_eq : ∀ (m1 m2 s2 t : Str), ':' ∉ m1 → ':' ∉ m2 →
    (m1 ++ [':']) ++ t = m2 ++ ':' :: s2 → m1 = m2 := by
  intro m1
  induction m1 with
  | nil =>
    intro m2 s2 t h1 h2 heq
    cases m2 with
    | nil => rfl
    | cons b m2' =>
      simp only [List.nil_append, List.cons_append] at heq
      injection heq with hb _
      exact absurd (hb ▸ List.mem_cons_self b m2') h2
  | cons a m1' ih =>
    intro m2 s2 t h1 h2 heq
    cases m2 with
    | nil =>
      simp only [List.cons_append, List.nil_append] at heq
      injection heq with ha _
      exact absurd (ha ▸ List.mem_cons_self a m1') h1
    | cons b m2' =>
      simp only [List.cons_append] at heq
      injection heq with hab htail
      have h1' : ':' ∉ m1' := fun hm => h1 (List.mem_cons_of_mem a hm)
      have h2' : ':' ∉ m2' := fun hm => h2 (List.mem_cons_of_mem b hm)
      rw [hab, ih m2' s2 t h1' h2' htail]

theorem createKey_append (m : Str) (ps : List JValue) :
    createKey m ps = (m ++ [':']) ++ stringify (JValue.arr ps) := by
  simp [createKey]

theorem isPrefixOf_createKey_self (m : Str) (ps : List JValue) :
    List.isPrefixOf (m ++ [':']) (createKey m ps) = true := by
  rw [createKey_append, List.isPrefixOf_iff_prefix]
  exact List.prefix_append _ _

theorem not_isPrefixOf_createKey (m1 m2 : Str) (ps : List JValue) (h1 : ':' ∉ m1)
    (h2 : ':' ∉ m2) (hne : m1 ≠ m2) :
    List.isPrefixOf (m1 ++ [':']) (createKey m2 ps) = false := by
  rw [← Bool.not_eq_true, List.isPrefixOf_iff_prefix]
  rintro ⟨t, ht⟩
  rw [createKey] at ht
  exact hne (colon_free_append_eq m1 m2 (stringify (JValue.arr ps)) t h1 h2 ht)

theorem mem_invalidate_keys {V : Type} (r : RpcCache V) (m k : Str) :
    k ∈ cacheKeys (r.invalidate m).cache.entries ↔
      k ∈ cacheKeys r.cache.entries ∧ ¬ List.isPrefixOf (m ++ [':']) k = true := by
  rw [RpcCache.invalidate]
  simp only [mem_cacheKeys_foldl_del, List.mem_map, List.mem_filter]
  constructor
  · rintro ⟨hk, hnd⟩
    refine ⟨hk, fun hpre => hnd ?_⟩
    rcases List.mem_map.mp hk with ⟨p, hp, rfl⟩
    exact ⟨p, ⟨hp, hpre⟩, rfl⟩
  · rintro ⟨hk, hnp⟩
    refine ⟨hk, fun hcon => ?_⟩
    rcases hcon with ⟨p, ⟨-, hpre⟩, rfl⟩
    exact hnp hpre

/-- C4 counterexample: for the distinct methods `"a"` and `"a:x"`, the key
`createKey("a:x", [])` = `"a:x:[]"` starts with `"a:"`, so `invalidate("a")`
removes an entry that was produced for the other method `"a:x"`. The claim,
quantified over every pair of distinct method strings, is therefore false. -/
theorem c4_prefix_collision :
    (['a'] : Str) ≠ ['a', ':', 'x'] ∧
    createKey ['a', ':', 'x'] [] ∈
      cacheKeys (RpcCache.mk (fun _ => 0) 5000
        ⟨[(createKey ['a', ':', 'x'] [], ⟨1, 100, 0⟩)], 60000, 1000, ⟨0, 0, 0, 0⟩⟩ :
          RpcCache Nat).cache.entries ∧
    createKey ['a', ':', 'x'] [] ∉
      cacheKeys ((RpcCache.mk (fun _ => 0) 5000
        ⟨[(createKey ['a', ':', 'x'] [], ⟨1, 100, 0⟩)], 60000, 1000, ⟨0, 0, 0, 0⟩⟩ :
          RpcCache Nat).invalidate ['a']).cache.entries := by
  decide

/-- C4 (amended): for every pair of distinct colon-free method strings `m1`,
`m2`, `invalidate(m1)` removes every entry whose key was produced via
`createKey(m1, params)` and leaves the presence of every `createKey(m2, qs)`
key unchanged. (Method names containing `":"` can collide through the textual
`startsWith(method + ":")` test, as the counterexample shows.) -/
theorem c4_invalidate_exact {V : Type} (r : RpcCache V) (m1 m2 : Str)
    (h1 : ':' ∉ m1) (h2 : ':' ∉ m2) (hne : m1 ≠ m2) :
    (∀ ps, createKey m1 ps ∉ cacheKeys (r.invalidate m1).cache.entries) ∧
    (∀ qs, createKey m2 qs ∈ cacheKeys (r.invalidate m1).cache.entries ↔
       createKey m2 qs ∈ cacheKeys r.cache.entries) := by
  constructor
  · intro ps hmem
    rw [mem_invalidate_keys] at hmem
    exact hmem.2 (isPrefixOf_createKey_self m1 ps)
  · intro qs
    rw [mem_invalidate_keys]
    have hfalse := not_isPrefixOf_createKey m1 m2 qs h1 h2 hne
    simp [hfalse]

/-- Concrete RPC cache used to witness C4. -/
def c4wit : RpcCache Nat :=
  RpcCache.mk (fun _ => 0) 5000
    ⟨[(createKey ['a'] [], ⟨1, 100, 0⟩), (createKey ['b'] [], ⟨2, 100, 0⟩)],
     60000, 1000, ⟨0, 0, 0, 0⟩⟩

/-- Witness for C4 at the concrete methods `"a"` and `"b"`. -/
theorem c4_invalidate_exact_witness :
    (':' ∉ (['a'] : Str) ∧ ':' ∉ (['b'] : Str) ∧ (['a'] : Str) ≠ ['b']) ∧
    ((∀ ps, createKey ['a'] ps ∉ cacheKeys (c4wit.invalidate ['a']).cache.entries) ∧
     (∀ qs, createKey ['b'] qs ∈ cacheKeys (c4wit.invalidate ['a']).cache.entries ↔
        createKey ['b'] qs ∈ cacheKeys c4wit.cache.entries)) :=
  ⟨⟨by decide, by decide, by decide⟩,
   c4_invalidate_exact c4wit ['a'] ['b'] (by decide) (by decide) (by decide)⟩

/-! ## Claim C9: `createKey` and value equality of the parameter list -/

/-- Logical (structural) value equality of two JS values, independent of
object-key insertion order: objects are compared as finite maps (one side's
fields are matched against the other side's at an arbitrary position),
arrays element-wise. This formalizes the spec's "value equality, not
reference equality". -/
inductive ValueEq : JValue → JValue → Prop where
  | null : ValueEq .null .null
  | bool (b : Bool) : ValueEq (.bool b) (.bool b)
  | num (i : Int) : ValueEq (.num i) (.num i)
  | str (s : Str) : ValueEq (.str s) (.str s)
  | arr_nil : ValueEq (.arr []) (.arr [])
  | arr_cons {x y : JValue} {xs ys : List JValue} :
      ValueEq x y → ValueEq (.arr xs) (.arr ys) →
      ValueEq (.arr (x :: xs)) (.arr (y :: ys))
  | obj_nil : ValueEq (.obj []) (.obj [])
  | obj_cons {k : Str} {v w : JValue} {l1 l2a l2b : List (Str × JValue)} :
      ValueEq v w → ValueEq (.obj l1) (.obj (l2a ++ l2b)) →
      ValueEq (.obj ((k, v) :: l1)) (.obj (l2a ++ (k, w) :: l2b))

/-- Values containing no JS object (primitives and arrays only). -/
inductive ObjFree : JValue → Prop where
  | null : ObjFree .null
  | bool (b : Bool) : ObjFree (.bool b)
  | num (i : Int) : ObjFree (.num i)
  | str (s : Str) : ObjFree (.str s)
  | arr_nil : ObjFree (.arr [])
  | arr_cons {x : JValue} {xs : List JValue} :
      ObjFree x → ObjFree (.arr xs) → ObjFree (.arr (x :: xs))

/-- C9 counterexample: the parameter lists `[{a: 1, b: 2}]` and
`[{b: 2, a: 1}]` are equal as values (same fields, different construction
order), yet `JSON.stringify` serializes the fields in insertion order, so
`createKey` returns different strings. The claim is false when parameters
contain objects. -/
theorem c9_key_order_sensitivity :
    ValueEq (.arr [.obj [(['a'], .num 1), (['b'], .num 2)]])
            (.arr [.obj [(['b'], .num 2), (['a'], .num 1)]]) ∧
    createKey ['m'] [.obj [(['a'], .num 1), (['b'], .num 2)]] ≠
      createKey ['m'] [.obj [(['b'], .num 2), (['a'], .num 1)]] := by
  constructor
  · exact ValueEq.arr_cons
      (@ValueEq.obj_cons ['a'] (.num 1) (.num 1) [(['b'], .num 2)] [(['b'], .num 2)] []
        (ValueEq.num 1)
        (@ValueEq.obj_cons ['b'] (.num 2) (.num 2) [] [] [] (ValueEq.num 2) ValueEq.obj_nil))
      ValueEq.arr_nil
  · decide

theorem valueEq_eq_of_objFree : ∀ {v w : JValue}, ValueEq v w → ObjFree v → v = w := by
  intro v w h
  induction h with
  | null => intro _; rfl
  | bool b => intro _; rfl
  | num i => intro _; rfl
  | str s => intro _; rfl
  | arr_nil => intro _; rfl
  | arr_cons _ _ ihx ihxs =>
    intro hof
    cases hof with
    | arr_cons hx' hxs' =>
      have h1 := ihx hx'
      have h2 := ihxs hxs'
      injection h2 with h2'
      rw [h1, h2']
  | obj_nil => intro hof; cases hof
  | obj_cons _ _ _ _ => intro hof; cases hof

/-- C9 (amended): for every method and every two parameter lists that are
equal as values and contain no JS objects (primitives and arrays only),
`createKey` returns the identical string. With objects the key additionally
depends on the field insertion order, as the counterexample shows. -/
theorem c9_createKey_stable (m : Str) (ps qs : List JValue)
    (hof : ObjFree (.arr ps)) (heq : ValueEq (.arr ps) (.arr qs)) :
    createKey m ps = createKey m qs := by
  have h := valueEq_eq_of_objFree heq hof
  injection h with h'
  rw [createKey, createKey, h']

/-- Witness for C9 on a concrete object-free parameter list. -/
theorem c9_createKey_stable_witness :
    (ObjFree (.arr [.num 1, .arr [.str ['x']]]) ∧
     ValueEq (.arr [.num 1, .arr [.str ['x']]]) (.arr [.num 1, .arr [.str ['x']]])) ∧
    createKey ['m'] [.num 1, .arr [.str ['x']]] =
      createKey ['m'] [.num 1, .arr [.str ['x']]] :=
  ⟨⟨ObjFree.arr_cons (ObjFree.num 1)
      (ObjFree.arr_cons (ObjFree.arr_cons (ObjFree.str ['x']) ObjFree.arr_nil)
        ObjFree.arr_nil),
    ValueEq.arr_cons (ValueEq.num 1)
      (ValueEq.arr_cons
        (ValueEq.arr_cons (ValueEq.str ['x']) ValueEq.arr_nil) ValueEq.arr_nil)⟩,
   c9_createKey_stable ['m'] [.num 1, .arr [.str ['x']]] [.num 1, .arr [.str ['x']]]
     (ObjFree.arr_cons (ObjFree.num 1)
       (ObjFree.arr_cons (ObjFree.arr_cons (ObjFree.str ['x']) ObjFree.arr_nil)
         ObjFree.arr_nil))
     (ValueEq.arr_cons (ValueEq.num 1)
       (ValueEq.arr_cons
         (ValueEq.arr_cons (ValueEq.str ['x']) ValueEq.arr_nil) ValueEq.arr_nil))⟩

/-! ## Subscription hub (WebSocket handlers in `initializeWebSocketServer`) -/

/-- A topic registry of `activeSubscriptions`: key (address, tx hash or
network key) to the `Set` of subscribed client ids; `none` means the key is
absent from the object. -/
abbrev Registry := String → Option (List String)

/-- `Set.prototype.add`. -/
def setAdd (l : List String) (x : String) : List String :=
  if x ∈ l then l else l ++ [x]

/-- `Set.prototype.delete`. -/
def setDel (l : List String) (x : String) : List String :=
  l.filter (fun y => decide (y ≠ x))

/-- `requestLimiter.timeWindow`: one minute. -/
def rlTimeWindow : Nat := 60 * 1000

/-- `requestLimiter.maxRequests`: 60 requests per minute. -/
def rlMaxRequests : Nat := 60

/-- `isRateLimited(eventType)` for one `(socket, eventType)` key at time
`now`: purge timestamps outside the window, reject without recording when the
limit is reached, otherwise record `now` and accept. Returns the decision and
the updated timestamp list. -/
def rateLimitStep (reqs : List Nat) (now : Nat) : Bool × List Nat :=
  let filtered := reqs.filter (fun t => decide (now - t < rlTimeWindow))
  if rlMaxRequests ≤ filtered.length then (true, filtered)
  else (false, filtered ++ [now])

/-- Per-connection state relevant to the `subscribe:balance` /
`unsubscribe:balance` handlers: the `activeSubscriptions.balances` registry,
this connection's `clientSubscriptions.balances`, and the rate-limiter
timestamps for this socket's `subscribe:balance` key. -/
structure HubState where
  active : Registry
  clientSubs : List String
  reqs : List Nat

/-- Result of running a subscribe handler: the new state and whether an
`error` event was emitted to the requester. -/
structure HandlerResult where
  state : HubState
  emittedError : Bool

/-- The registry update performed by a subscribe handler:
`if (!active[key]) active[key] = new Set(); active[key].add(socket.id)`. -/
def registryAdd (reg : Registry) (key sid : String) : Registry :=
  fun k => if k = key then some (setAdd ((reg key).getD []) sid) else reg k

/-- The `subscribe:balance` handler (its local, synchronous state effects):
rate-limit check first — a limited request emits `error` and touches no
registry — otherwise register the address subscription in both the topic
registry and the per-connection reverse index. -/
def subscribeBalance (st : HubState) (sid addr : String) (now : Nat) : HandlerResult :=
  let step := rateLimitStep st.reqs now
  if step.1 then ⟨{ st with reqs := step.2 }, true⟩
  else
    ⟨{ active := registryAdd st.active addr sid,
       clientSubs := setAdd st.clientSubs addr,
       reqs := step.2 }, false⟩

/-- The `unsubscribe:balance` handler: if the key is present, delete the
client from its subscriber set and drop the key from the reverse index — the
(possibly now empty) subscriber set itself stays under the key. -/
def unsubscribeBalance (st : HubState) (sid addr : String) : HubState :=
  match st.active addr with
  | none => st
  | some l =>
    { st with
        active := fun k => if k = addr then some (setDel l sid) else st.active k,
        clientSubs := setDel st.clientSubs addr }

/-! ## Claim C1: subscribe then unsubscribe by the sole subscriber -/

/-- Fresh connection state: empty registries and a fresh rate limiter. -/
def hub0 : HubState := ⟨fun _ => none, [], []⟩

/-- C1: evaluating the handlers at the failing input. A fresh client
subscribes to the balance of one address and immediately unsubscribes. The
reverse client index is emptied, but the topic registry still holds the
address mapped to an empty subscriber set (`some []`, not key removal): the
`unsubscribe:*` handlers never delete an emptied set, contradicting the claim
(and the spec's own empty-set teardown rule, which the `disconnect` handler
does implement). -/
theorem c1_unsubscribe_keeps_empty_set :
    (subscribeBalance hub0 "c1" "0xabc" 0).emittedError = false ∧
    (unsubscribeBalance (subscribeBalance hub0 "c1" "0xabc" 0).state "c1" "0xabc").active
      "0xabc" = some [] ∧
    (unsubscribeBalance (subscribeBalance hub0 "c1" "0xabc" 0).state "c1" "0xabc").clientSubs
      = [] := by
  decide

/-! ## Claim C6: per-(client, event) sliding-window rate limiting -/

/-- C6: with window 60s and limit 60, a `subscribe:balance` request finding 60
recorded timestamps inside the trailing window is rejected with an `error`
event, changes no subscription state, and is not recorded as an additional
attempt (the stored list becomes exactly the purged old timestamps); a
request finding fewer than 60 in-window timestamps — in particular any
request after enough time has elapsed — is accepted, emits no error and is
recorded. -/
theorem c6_rate_limit (st : HubState) (sid addr : String) (now : Nat) :
    (rlMaxRequests ≤ (st.reqs.filter (fun t => decide (now - t < rlTimeWindow))).length →
      (subscribeBalance st sid addr now).emittedError = true ∧
      (subscribeBalance st sid addr now).state.active = st.active ∧
      (subscribeBalance st sid addr now).state.clientSubs = st.clientSubs ∧
      (subscribeBalance st sid addr now).state.reqs =
        st.reqs.filter (fun t => decide (now - t < rlTimeWindow))) ∧
    ((st.reqs.filter (fun t => decide (now - t < rlTimeWindow))).length < rlMaxRequests →
      (subscribeBalance st sid addr now).emittedError = false ∧
      (subscribeBalance st sid addr now).state.reqs =
        st.reqs.filter (fun t => decide (now - t < rlTimeWindow)) ++ [now]) := by
  constructor
  · intro h
    simp [subscribeBalance, rateLimitStep, h]
  · intro h
    simp [subscribeBalance, rateLimitStep, Nat.not_le.mpr h]

/-- Saturated rate-limiter state used to witness C6: 60 requests recorded at
time 0. -/
def c6sat : HubState := ⟨fun _ => none, [], List.replicate 60 0⟩

/-- Witness for C6: at time 1 the 61st request is rejected; at time 70000 the
whole window has elapsed and a request is accepted again. -/
theorem c6_rate_limit_witness :
    (rlMaxRequests ≤
        (c6sat.reqs.filter (fun t => decide (1 - t < rlTimeWindow))).length ∧
      ((subscribeBalance c6sat "c1" "0xabc" 1).emittedError = true ∧
       (subscribeBalance c6sat "c1" "0xabc" 1).state.active = c6sat.active ∧
       (subscribeBalance c6sat "c1" "0xabc" 1).state.clientSubs = c6sat.clientSubs ∧
       (subscribeBalance c6sat "c1" "0xabc" 1).state.reqs =
         c6sat.reqs.filter (fun t => decide (1 - t < rlTimeWindow)))) ∧
    ((c6sat.reqs.filter (fun t => decide (70000 - t < rlTimeWindow))).length <
        rlMaxRequests ∧
      ((subscribeBalance c6sat "c1" "0xabc" 70000).emittedError = false ∧
       (subscribeBalance c6sat "c1" "0xabc" 70000).state.reqs =
         c6sat.reqs.filter (fun t => decide (70000 - t < rlTimeWindow)) ++ [70000])) :=
  ⟨⟨by decide, (c6_rate_limit c6sat "c1" "0xabc" 1).1 (by decide)⟩,
   ⟨by decide, (c6_rate_limit c6sat "c1" "0xabc" 70000).2 (by decide)⟩⟩

/-! ## Claim C5: disconnect cleanup -/

/-- The four topics of `activeSubscriptions` / `clientSubscriptions`. -/
inductive Topic where
  | balances
  | pendingTxs
  | blocks
  | gasPrice
deriving DecidableEq

/-- One iteration of a `disconnect` cleanup loop: delete the client from the
subscriber set of one key of the reverse index, and delete the key entirely
when its set becomes empty. -/
def processDisconnectKey (reg : Registry) (sid k : String) : Registry :=
  match reg k with
  | none => reg
  | some l =>
    let l' := setDel l sid
    if l'.length = 0 then fun k2 => if k2 = k then none else reg k2
    else fun k2 => if k2 = k then some l' else reg k2

/-- A whole `disconnect` cleanup loop over the keys recorded in this
connection's reverse index for one topic. -/
def cleanupClient : Registry → String → List String → Registry
  | reg, _, [] => reg
  | reg, sid, k :: ks => cleanupClient (processDisconnectKey reg sid k) sid ks

/-- The `disconnect` handler: run the cleanup loop of every topic. -/
def disconnectCleanup (active : Topic → Registry) (client : Topic → List String)
    (sid : String) : Topic → Registry :=
  fun t => cleanupClient (active t) sid (client t)

/-- Subscriber list of a key (`[]` when the key is absent). -/
def getSubs (reg : Registry) (k : String) : List String :=
  (reg k).getD []

theorem processDisconnectKey_absent (reg : Registry) (sid k : String) (h : reg k = none) :
    processDisconnectKey reg sid k = reg := by
  unfold processDisconnectKey
  rw [h]

theorem processDisconnectKey_present (reg : Registry) (sid k : String) (l : List String)
    (h : reg k = some l) :
    processDisconnectKey reg sid k =
      if (setDel l sid).length = 0 then (fun k2 => if k2 = k then none else reg k2)
      else (fun k2 => if k2 = k then some (setDel l sid) else reg k2) := by
  unfold processDisconnectKey
  rw [h]

theorem processDisconnectKey_other (reg : Registry) (sid k k2 : String) (h : k2 ≠ k) :
    processDisconnectKey reg sid k k2 = reg k2 := by
  cases hreg : reg k with
  | none => rw [processDisconnectKey_absent reg sid k hreg]
  | some l =>
    rw [processDisconnectKey_present reg sid k l hreg]
    split
    · simp [h]
    · simp [h]

theorem not_mem_getSubs_processDisconnectKey_self (reg : Registry) (sid k : String) :
    sid ∉ getSubs (processDisconnectKey reg sid k) k := by
  cases hreg : reg k with
  | none => simp [getSubs, processDisconnectKey_absent reg sid k hreg, hreg]
  | some l =>
    rw [getSubs, processDisconnectKey_present reg sid k l hreg]
    split
    · simp
    · simp [setDel, List.mem_filter]

theorem not_mem_getSubs_processDisconnectKey (reg : Registry) (sid k k2 : String)
    (h : sid ∉ getSubs reg k2) : sid ∉ getSubs (processDisconnectKey reg sid k) k2 := by
  by_cases hk : k2 = k
  · subst hk
    exact not_mem_getSubs_processDisconnectKey_self reg sid k2
  · rw [getSubs, processDisconnectKey_other reg sid k k2 hk]
    exact h

theorem mem_getSubs_processDisconnectKey_frame (reg : Registry) (sid k k2 c : String)
    (hc : c ≠ sid) :
    c ∈ getSubs (processDisconnectKey reg sid k) k2 ↔ c ∈ getSubs reg k2 := by
  by_cases hk : k2 = k
  · subst hk
    cases hreg : reg k2 with
    | none => rw [processDisconnectKey_absent reg sid k2 hreg]
    | some l =>
      rw [getSubs, processDisconnectKey_present reg sid k2 l hreg]
      split
      next hlen =>
        have hempty : setDel l sid = [] := List.length_eq_zero.mp hlen
        simp only [eq_self_iff_true, if_true, Option.getD_none, getSubs, hreg,
          Option.getD_some]
        constructor
        · intro hmem
          exact absurd hmem (List.not_mem_nil c)
        · intro hmem
          have hmem2 : c ∈ setDel l sid := by
            simp [setDel, List.mem_filter, hmem, hc]
          rw [hempty] at hmem2
          exact absurd hmem2 (List.not_mem_nil c)
      next hlen =>
        simp [getSubs, hreg, setDel, List.mem_filter, hc]
  · rw [getSubs, processDisconnectKey_other reg sid k k2 hk]
    rfl

theorem not_mem_getSubs_cleanupClient (reg : Registry) (sid : String) (ks : List String)
    (k : String) (h : sid ∉ getSubs reg k) : sid ∉ getSubs (cleanupClient reg sid ks) k := by
  induction ks generalizing reg with
  | nil => exact h
  | cons a ks ih =>
    exact ih _ (not_mem_getSubs_processDisconnectKey reg sid a k h)

theorem not_mem_getSubs_cleanupClient_of_mem (reg : Registry) (sid : String)
    (ks : List String) (k : String) (hk : k ∈ ks) :
    sid ∉ getSubs (cleanupClient reg sid ks) k := by
  induction ks generalizing reg with
  | nil => cases hk
  | cons a ks ih =>
    rcases List.mem_cons.mp hk with rfl | hk'
    · exact not_mem_getSubs_cleanupClient _ sid ks k
        (not_mem_getSubs_processDisconnectKey_self reg sid k)
    · exact ih _ hk'

theorem mem_getSubs_cleanupClient_frame (reg : Registry) (sid : String) (ks : List String)
    (k c : String) (hc : c ≠ sid) :
    c ∈ getSubs (cleanupClient reg sid ks) k ↔ c ∈ getSubs reg k := by
  induction ks generalizing reg with
  | nil => rfl
  | cons a ks ih =>
    rw [cleanupClient, ih]
    exact mem_getSubs_processDisconnectKey_frame reg sid a k c hc

theorem processDisconnectKey_self_nonempty (reg : Registry) (sid k : String) :
    ∀ l, processDisconnectKey reg sid k k = some l → l ≠ [] := by
  intro l hl
  cases hreg : reg k with
  | none =>
    rw [processDisconnectKey_absent reg sid k hreg, hreg] at hl
    cases hl
  | some l0 =>
    rw [processDisconnectKey_present reg sid k l0 hreg] at hl
    split at hl
    next hlen =>
      simp at hl
    next hlen =>
      simp only [eq_self_iff_true, if_true, Option.some.injEq] at hl
      subst hl
      intro habs
      exact hlen (by rw [habs]; rfl)

theorem processDisconnectKey_nonempty (reg : Registry) (sid k k2 : String)
    (h : ∀ l, reg k2 = some l → l ≠ []) :
    ∀ l, processDisconnectKey reg sid k k2 = some l → l ≠ [] := by
  by_cases hk : k2 = k
  · subst hk
    exact processDisconnectKey_self_nonempty reg sid k2
  · rw [processDisconnectKey_other reg sid k k2 hk]
    exact h

theorem cleanupClient_preserves_nonempty (reg : Registry) (sid : String)
    (ks : List String) (k : String) (h : ∀ l, reg k = some l → l ≠ []) :
    ∀ l, cleanupClient reg sid ks k = some l → l ≠ [] := by
  induction ks generalizing reg with
  | nil => exact h
  | cons a ks ih =>
    exact ih _ (processDisconnectKey_nonempty reg sid a k h)

theorem cleanupClient_nonempty_of_mem (reg : Registry) (sid : String) (ks : List String)
    (k : String) (hk : k ∈ ks) :
    ∀ l, cleanupClient reg sid ks k = some l → l ≠ [] := by
  induction ks generalizing reg with
  | nil => cases hk
  | cons a ks ih =>
    rcases List.mem_cons.mp hk with rfl | hk'
    · exact cleanupClient_preserves_nonempty _ sid ks k
        (processDisconnectKey_self_nonempty reg sid k)
    · exact ih _ hk'

/-- C5: a disconnecting client whose per-connection reverse index covers its
registry memberships is removed from every (topic, key) subscriber set; every
subscriber set that becomes empty is deleted from the registry (no key of the
reverse index is left mapping to an empty set); and the membership of every
other client in every subscriber set of every topic is unchanged. -/
theorem c5_disconnect_cleanup (active : Topic → Registry) (client : Topic → List String)
    (sid : String) (hcov : ∀ t k, sid ∈ getSubs (active t) k → k ∈ client t) :
    ∀ t, (∀ k, sid ∉ getSubs (disconnectCleanup active client sid t) k) ∧
      (∀ c, c ≠ sid → ∀ k, c ∈ getSubs (disconnectCleanup active client sid t) k ↔
        c ∈ getSubs (active t) k) ∧
      (∀ k ∈ client t, ∀ l, disconnectCleanup active client sid t k = some l → l ≠ []) := by
  intro t
  refine ⟨fun k => ?_, fun c hc k => ?_, fun k hk => ?_⟩
  · by_cases hmem : sid ∈ getSubs (active t) k
    · exact not_mem_getSubs_cleanupClient_of_mem _ _ _ _ (hcov t k hmem)
    · exact not_mem_getSubs_cleanupClient _ _ _ _ hmem
  · exact mem_getSubs_cleanupClient_frame _ _ _ _ _ hc
  · exact cleanupClient_nonempty_of_mem _ _ _ _ hk

/-- Concrete registries used to witness C5: client c1 and c2 both subscribed
to the balance of one address; c1 disconnects. -/
def c5active : Topic → Registry := fun t =>
  match t with
  | .balances => fun k => if k = "0xa" then some ["c1", "c2"] else none
  | _ => fun _ => none

/-- Concrete reverse index of client c1 for the C5 witness. -/
def c5client : Topic → List String := fun t =>
  match t with
  | .balances => ["0xa"]
  | _ => []

/-- Witness for C5 at the concrete two-client registry. -/
theorem c5_disconnect_cleanup_witness :
    (∀ t k, "c1" ∈ getSubs (c5active t) k → k ∈ c5client t) ∧
    ∀ t, (∀ k, "c1" ∉ getSubs (disconnectCleanup c5active c5client "c1" t) k) ∧
      (∀ c, c ≠ "c1" → ∀ k, c ∈ getSubs (disconnectCleanup c5active c5client "c1" t) k ↔
        c ∈ getSubs (c5active t) k) ∧
      (∀ k ∈ c5client t, ∀ l,
        disconnectCleanup c5active c5client "c1" t k = some l → l ≠ []) := by
  have hcov : ∀ t k, "c1" ∈ getSubs (c5active t) k → k ∈ c5client t := by
    intro t k h
    cases t with
    | balances =>
      by_cases hk : k = "0xa"
      · simp [c5client, hk]
      · simp [c5active, getSubs, hk] at h
    | pendingTxs => simp [c5active, getSubs] at h
    | blocks => simp [c5active, getSubs] at h
    | gasPrice => simp [c5active, getSubs] at h
  exact ⟨hcov, c5_disconnect_cleanup c5active c5client "c1" hcov⟩

/-! ## Network task queue (`src/utils/queue.js` + `better-queue`) -/

/-- The `retryDelay: 1000` option passed to `better-queue` by
`getNetworkQueue`. -/
def retryDelay : Nat := 1000

/-- The `maxRetries: 3` option passed to `better-queue` by
`getNetworkQueue`. -/
def queueMaxRetries : Nat := 3

/-- Modelled from the spec: the attempt schedule of a retried task — the
`better-queue` retry driver (library code, not in the repository sources)
separates consecutive attempts by the fixed `retryDelay`. -/
def attemptTime (i : Nat) : Nat :=
  i * retryDelay

/-- Modelled from the spec: the `better-queue` retry loop (library code, not
in the repository sources) — run attempt `i` of the work function; on failure,
retry while budget remains, otherwise surface the last error. -/
def retryLoop {E A : Type} (work : Nat → Except E A) : Nat → Nat → Except E A
  | i, 0 =>
    (match work i with
     | .ok a => .ok a
     | .error e => .error e)
  | i, r + 1 =>
    (match work i with
     | .ok a => .ok a
     | .error _ => retryLoop work (i + 1) r)

/-- Modelled from the spec: running one task submitted through
`enqueueNetworkRequest` — up to `maxRetries` (3) attempts in total. -/
def runNetworkTask {E A : Type} (work : Nat → Except E A) : Except E A :=
  retryLoop work 0 (queueMaxRetries - 1)

theorem retryLoop_ok {E A : Type} (work : Nat → Except E A) (i rem : Nat) (a : A)
    (h : work i = .ok a) : retryLoop work i rem = .ok a := by
  cases rem with
  | zero => simp [retryLoop, h]
  | succ r => simp [retryLoop, h]

theorem retryLoop_error_step {E A : Type} (work : Nat → Except E A) (i r : Nat) (e : E)
    (h : work i = .error e) : retryLoop work i (r + 1) = retryLoop work (i + 1) r := by
  simp [retryLoop, h]

theorem retryLoop_error_last {E A : Type} (work : Nat → Except E A) (i : Nat) (e : E)
    (h : work i = .error e) : retryLoop work i 0 = .error e := by
  simp [retryLoop, h]

/-! ## Claim C3: retry-until-success-or-exhaustion semantics -/

/-- C3: a task failing on all `maxRetries = 3` attempts resolves as failed
with the last error; a task failing `k < 3` times and then succeeding resolves
with the successful result; consecutive attempts are separated by the fixed
`retryDelay = 1000` ms. -/
theorem c3_retry_semantics {E A : Type} (work : Nat → Except E A) (errs : Nat → E)
    (a : A) (k : Nat) :
    ((∀ i, i < queueMaxRetries → work i = .error (errs i)) →
      runNetworkTask work = .error (errs 2)) ∧
    (k < queueMaxRetries → (∀ i, i < k → work i = .error (errs i)) → work k = .ok a →
      runNetworkTask work = .ok a) ∧
    (∀ i, attemptTime (i + 1) = attemptTime i + retryDelay) := by
  have hrem : queueMaxRetries - 1 = 2 := rfl
  refine ⟨?_, ?_, ?_⟩
  · intro h
    have e0 := h 0 (by decide)
    have e1 := h 1 (by decide)
    have e2 := h 2 (by decide)
    rw [runNetworkTask, hrem, retryLoop_error_step work 0 1 _ e0,
      retryLoop_error_step work 1 0 _ e1, retryLoop_error_last work 2 _ e2]
  · intro hk hfail hok
    have hk3 : k < 3 := hk
    rw [runNetworkTask, hrem]
    interval_cases k
    · exact retryLoop_ok work 0 2 a hok
    · rw [retryLoop_error_step work 0 1 _ (hfail 0 (by decide))]
      exact retryLoop_ok work 1 1 a hok
    · rw [retryLoop_error_step work 0 1 _ (hfail 0 (by decide)),
        retryLoop_error_step work 1 0 _ (hfail 1 (by decide))]
      exact retryLoop_ok work 2 0 a hok
  · intro i
    simp [attemptTime, retryDelay, Nat.succ_mul]

/-- Always-failing work function used to witness C3. -/
def c3failWork : Nat → Except Nat Nat := fun i => .error i

/-- Work function failing once and then succeeding, used to witness C3. -/
def c3recoverWork : Nat → Except Nat Nat := fun i => if i = 1 then .ok 5 else .error i

/-- Witness for C3: three straight failures reject with the last error; one
failure followed by a success resolves with the success value. -/
theorem c3_retry_semantics_witness :
    ((∀ i, i < queueMaxRetries → c3failWork i = .error i) ∧
      runNetworkTask c3failWork = .error 2) ∧
    ((1 < queueMaxRetries ∧ (∀ i, i < 1 → c3recoverWork i = .error i) ∧
        c3recoverWork 1 = .ok 5) ∧
      runNetworkTask c3recoverWork = .ok 5) :=
  ⟨⟨fun _ _ => rfl,
    (c3_retry_semantics c3failWork (fun i => i) 0 0).1 (fun _ _ => rfl)⟩,
   ⟨⟨by decide,
     fun i hi => by
       have h0 : i = 0 := by omega
       subst h0
       rfl,
     rfl⟩,
    (c3_retry_semantics c3recoverWork (fun i => i) 5 1).2.1 (by decide)
      (fun i hi => by
        have h0 : i = 0 := by omega
        subst h0
        rfl)
      rfl⟩⟩

/-! ## Claim C8: bounded concurrency per network queue -/

/-- Modelled from the spec: the observable scheduling state of one network's
`better-queue` worker pool (library code, not in the repository sources) —
the fixed concurrency limit, the number of currently running tasks and the
number of pending tasks. -/
structure QueueState where
  concurrency : Nat
  running : Nat
  pending : Nat

/-- Modelled from the spec: scheduling events of a network queue — a task is
enqueued, a worker starts a pending task, a running task finishes. -/
inductive QueueEvent where
  | enqueue
  | start
  | finish

/-- Modelled from the spec: one scheduling transition — a worker may start a
pending task only while the running count is below the concurrency limit. -/
def queueStep (s : QueueState) : QueueEvent → QueueState
  | .enqueue => { s with pending := s.pending + 1 }
  | .start =>
    if s.running < s.concurrency ∧ 0 < s.pending then
      { s with running := s.running + 1, pending := s.pending - 1 }
    else s
  | .finish =>
    if 0 < s.running then { s with running := s.running - 1 } else s

/-- A whole scheduling history. -/
def runQueue (s : QueueState) (evs : List QueueEvent) : QueueState :=
  evs.foldl queueStep s

/-- The queue created by `getNetworkQueue` for a fresh network key: no task
running, nothing pending, fixed concurrency `c` (default 3). -/
def initQueue (c : Nat) : QueueState := ⟨c, 0, 0⟩

theorem queueStep_bound (s : QueueState) (ev : QueueEvent)
    (h : s.running ≤ s.concurrency) :
    (queueStep s ev).running ≤ (queueStep s ev).concurrency := by
  cases ev with
  | enqueue => exact h
  | start =>
    simp only [queueStep]
    split
    next hc => exact hc.1
    next => exact h
  | finish =>
    simp only [queueStep]
    split
    next => exact Nat.le_trans (Nat.sub_le _ _) h
    next => exact h

theorem queueStep_concurrency (s : QueueState) (ev : QueueEvent) :
    (queueStep s ev).concurrency = s.concurrency := by
  cases ev with
  | enqueue => rfl
  | start =>
    simp only [queueStep]
    split
    · rfl
    · rfl
  | finish =>
    simp only [queueStep]
    split
    · rfl
    · rfl

theorem runQueue_concurrency (s : QueueState) (evs : List QueueEvent) :
    (runQueue s evs).concurrency = s.concurrency := by
  induction evs generalizing s with
  | nil => rfl
  | cons ev evs ih =>
    have hstep : runQueue s (ev :: evs) = runQueue (queueStep s ev) evs := rfl
    rw [hstep, ih, queueStep_concurrency]

/-- C8: starting from a fresh queue with concurrency limit `c`, the number of
simultaneously running tasks never exceeds `c`, whatever the burst of
enqueue/start/finish events. -/
theorem c8_concurrency_never_exceeded (c : Nat) (evs : List QueueEvent) :
    (runQueue (initQueue c) evs).running ≤ c := by
  have general : ∀ s : QueueState, s.running ≤ s.concurrency →
      (runQueue s evs).running ≤ (runQueue s evs).concurrency := by
    induction evs with
    | nil => intro s h; exact h
    | cons ev evs ih => intro s h; exact ih _ (queueStep_bound s ev h)
  have h := general (initQueue c) (Nat.zero_le c)
  rw [runQueue_concurrency] at h
  exact h

end EvmWallet
